import Mathlib

/-!
Verification of the juju API connection configuration layer
(`api` package: `Info`, `Validate`, `Ports`, `DialOpts`, `DefaultDialOpts`,
the `Connection` supervisor contract) and the rackspace provider
configurator, as a shallow embedding in Lean 4.

Go machine types are embedded as follows: `time.Duration` (int64
nanoseconds) as `Nat` nanosecond counts (all values here are small and
positive, far from overflow); `[]T` as `List`; interface values that may
be nil (`names.Tag`) as `Option`; Go structs as Lean structures keeping
the source field names.
-/

namespace JujuApi

/-- One parsed network address: `network.HostPort` restricted to the parts
this package reads (the host string and the numeric port). -/
structure HostPort where
  host : String
  port : Nat
deriving DecidableEq, Repr

/-- Decimal digit accumulator used to read a port number. -/
def digitsToNat (cs : List Char) : Nat :=
  cs.foldl (fun n c => n * 10 + (c.toNat - 48)) 0

/-- Modelled from the spec: `network.ParseHostPorts` lives in the
repository's `network` package, which is not under src/; the spec describes
addresses as "host:port strings (non-empty, each independently resolvable)".
One address parses when it splits at its last colon into a non-empty host
part and a non-empty all-decimal-digit port part. -/
def parseHostPort (s : String) : Option HostPort :=
  match s.data.reverse.span (fun c => c ≠ ':') with
  | (_, []) => none
  | (portRev, _ :: hostRev) =>
      let hostChars := hostRev.reverse
      let portChars := portRev.reverse
      if hostChars.isEmpty then none
      else if portChars.isEmpty then none
      else if portChars.all Char.isDigit then
        some { host := String.mk hostChars, port := digitsToNat portChars }
      else none

/-- Modelled from the spec: `network.ParseHostPorts` parses every address in
order and fails as soon as one address is malformed. -/
def parseHostPorts : List String → Option (List HostPort)
  | [] => some []
  | a :: rest =>
      match parseHostPort a, parseHostPorts rest with
      | some hp, some hps => some (hp :: hps)
      | _, _ => none

/-- A macaroon.Slice: an ordered chain of opaque credential tokens. -/
abbrev MacaroonSlice := List String

/-- `api.Info` - the fields the embedded operations read.  `Tag` is a Go
interface value that may be nil, hence `Option`. -/
structure Info where
  Addrs : List String
  SNIHostName : String
  CACert : String
  ModelTag : String
  SkipLogin : Bool
  Tag : Option String
  Password : String
  Macaroons : List MacaroonSlice
  Nonce : String
deriving DecidableEq, Repr

/-- The juju error values produced here: `errors.NotValidf` tags the error
as not-valid; `msg` is the format string passed at the call site. -/
structure JujuError where
  msg : String
  isNotValid : Bool
deriving DecidableEq, Repr

/-- `errors.NotValidf` - builds an error satisfying `errors.IsNotValid`. -/
def notValidf (m : String) : JujuError :=
  { msg := m, isNotValid := true }

/-- A network side effect a method body could perform; used to instrument
method embeddings. -/
inductive NetOp
  | dial (addr : String)
  | send (bytes : List Nat)
deriving DecidableEq, Repr

/-- `Info.Validate`, embedded as a method on the pointer receiver: the
result triple is (returned error, final state of the struct, network
operations performed).  Every branch of the source only reads fields and
calls the pure parser, so each branch returns the receiver unchanged and
an empty operation list. -/
def Info.ValidateM (info : Info) : Option JujuError × Info × List NetOp :=
  if info.Addrs.length = 0 then
    (some (notValidf "missing addresses"), info, [])
  else if (parseHostPorts info.Addrs).isNone then
    (some (notValidf "host addresses"), info, [])
  else if info.SkipLogin then
    if info.Tag.isSome then
      (some (notValidf "specifying Tag and SkipLogin"), info, [])
    else if info.Password ≠ "" then
      (some (notValidf "specifying Password and SkipLogin"), info, [])
    else if info.Macaroons.length > 0 then
      (some (notValidf "specifying Macaroons and SkipLogin"), info, [])
    else
      (none, info, [])
  else
    (none, info, [])

/-- `Info.Validate` - the returned error component. -/
def Info.Validate (info : Info) : Option JujuError :=
  info.ValidateM.1

/-- Insert a port into the accumulated value list of an int set: a set
member is stored once. -/
def addPort (acc : List Nat) (p : Nat) : List Nat :=
  if p ∈ acc then acc else acc ++ [p]

/-- `Info.Ports` - the unique ports of the api addresses.  The source
panics when `ParseHostPorts` fails ("Addresses have already been
validated."); the panic branch is embedded as `none`. -/
def Info.Ports (info : Info) : Option (List Nat) :=
  match parseHostPorts info.Addrs with
  | none => none
  | some hps => some (hps.foldl (fun acc hp => addPort acc hp.port) [])

/-- `time.Millisecond` in nanoseconds. -/
def millisecond : Nat := 1000000

/-- `time.Second` in nanoseconds. -/
def second : Nat := 1000 * millisecond

/-- `time.Minute` in nanoseconds. -/
def minute : Nat := 60 * second

/-- The clock source field of `DialOpts`: the wall clock or an injected
test clock. -/
inductive ClockSource
  | wallClock
  | testClock (label : String)
deriving DecidableEq, Repr

/-- `api.DialOpts` - the fields with first-order values.  The functional
fields (`BakeryClient`, `DialWebsocket`) are pointers that are nil in the
zero value and in `DefaultDialOpts`; they are embedded as `Bool` presence
flags. -/
structure DialOpts where
  CertPath : String
  Clock : ClockSource
  DialAddressInterval : Nat
  Timeout : Nat
  RetryDelay : Nat
  BakeryClientSet : Bool
  InsecureSkipVerify : Bool
  DialWebsocketSet : Bool
deriving DecidableEq, Repr

/-- `api.DefaultDialOpts` - a struct literal setting `Clock`,
`DialAddressInterval`, `Timeout` and `RetryDelay`; every other field keeps
its Go zero value. -/
def DefaultDialOpts : DialOpts :=
  { CertPath := ""
    Clock := .wallClock
    DialAddressInterval := 50 * millisecond
    Timeout := 10 * minute
    RetryDelay := 2 * second
    BakeryClientSet := false
    InsecureSkipVerify := false
    DialWebsocketSet := false }

/-- The Connection Supervisor states of the spec state machine. -/
inductive ConnState
  | connecting
  | authenticated
  | healthy
  | suspect
  | broken
deriving DecidableEq, Repr

/-- The events driving the supervisor: a successful login handshake, a
timely probe response, a missed or errored probe, the underlying transport
reporting closed, and an explicit Close call. -/
inductive ConnEvent
  | loginOk
  | probeOk
  | probeFail
  | transportClosed
  | closeCall
deriving DecidableEq, Repr

/-- Modelled from the spec: the Connection Supervisor implementation is not
under src/ (only the `Connection` interface with `Broken` and `IsBroken` is).
Spec: Connecting enters Authenticated on a successful handshake; thereafter
the machine alternates between Healthy and Suspect on probes; a missed or
errored probe moves it to Suspect; a second consecutive failure, or the
transport reporting closed, moves it to Broken; explicit Close moves any
state to Broken; Broken is terminal. -/
def supervisorStep : ConnState → ConnEvent → ConnState
  | .broken, _ => .broken
  | _, .closeCall => .broken
  | _, .transportClosed => .broken
  | .connecting, .loginOk => .authenticated
  | .connecting, _ => .connecting
  | .authenticated, .probeOk => .healthy
  | .authenticated, .probeFail => .suspect
  | .authenticated, .loginOk => .authenticated
  | .healthy, .probeOk => .healthy
  | .healthy, .probeFail => .suspect
  | .healthy, .loginOk => .healthy
  | .suspect, .probeOk => .healthy
  | .suspect, .probeFail => .broken
  | .suspect, .loginOk => .suspect

/-- The one-shot broken signal fires on a transition that enters Broken
from a non-Broken state (the channel returned by Broken is closed there). -/
def brokenFires (s : ConnState) (e : ConnEvent) : Bool :=
  decide (s ≠ ConnState.broken ∧ supervisorStep s e = ConnState.broken)

/-- How many times the broken signal fires along a run of the supervisor
from state `s` over a list of events. -/
def brokenFireCount : ConnState → List ConnEvent → Nat
  | _, [] => 0
  | s, e :: es =>
      (if brokenFires s e then 1 else 0) + brokenFireCount (supervisorStep s e) es

/-- The TLS material handed to the transport layer. -/
structure TLSParams where
  verifyWithCA : Bool
  caCert : String
  serverName : String
deriving DecidableEq, Repr

/-- Modelled from the spec: the connection-establishment code that builds
the TLS configuration is not under src/; the `Info.SNIHostName` doc comment
and the spec say the SNI hint is used only when `CACert` is empty, and with
a CA certificate present CA-based verification takes precedence and the
hint is ignored. -/
def tlsParamsFor (info : Info) : TLSParams :=
  if info.CACert = "" then
    { verifyWithCA := false, caCert := "", serverName := info.SNIHostName }
  else
    { verifyWithCA := true, caCert := info.CACert, serverName := "" }

/-- Modelled from the spec: the Dialer consumes the endpoint addresses and
the TLS parameters; connection establishment is a function of these inputs. -/
def dialInputs (info : Info) : List String × TLSParams :=
  (info.Addrs, tlsParamsFor info)

end JujuApi

namespace Rackspace

/-- `nova.RunServerOpts` (goose library) - the options struct passed to the
compute API when starting a server. -/
structure RunServerOpts where
  Name : String
  FlavorId : String
  ImageId : String
  UserData : List Nat
  SecurityGroupNames : List String
  Networks : List String
  AvailabilityZone : String
  Metadata : List (String × String)
  ConfigDrive : Bool
deriving DecidableEq, Repr

/-- `rackspaceConfigurator.ModifyRunServerOptions` - sets the ConfigDrive
option on the passed options struct. -/
def modifyRunServerOptions (options : RunServerOpts) : RunServerOpts :=
  { options with ConfigDrive := true }

end Rackspace

namespace JujuApi

/-- A list of addresses parses as a whole exactly when each address parses. -/
lemma parseHostPorts_isSome_iff (addrs : List String) :
    (parseHostPorts addrs).isSome = true ↔
      ∀ a ∈ addrs, (parseHostPort a).isSome = true := by
  induction addrs with
  | nil => simp [parseHostPorts]
  | cons a rest ih =>
      cases hpa : parseHostPort a with
      | none => simp [parseHostPorts, hpa]
      | some hp =>
          cases hrest : parseHostPorts rest with
          | none =>
              simp only [parseHostPorts, hpa, hrest]
              simp only [hrest] at ih
              simp_all
          | some hps =>
              simp only [parseHostPorts, hpa, hrest]
              simp only [hrest] at ih
              simp_all

/-- The parsed list holds exactly the parses of the addresses. -/
lemma mem_parseHostPorts {addrs : List String} {hps : List HostPort}
    (h : parseHostPorts addrs = some hps) (hp : HostPort) :
    hp ∈ hps ↔ ∃ a ∈ addrs, parseHostPort a = some hp := by
  induction addrs generalizing hps with
  | nil =>
      simp [parseHostPorts] at h
      subst h
      simp
  | cons a rest ih =>
      cases hpa : parseHostPort a with
      | none => simp [parseHostPorts, hpa] at h
      | some x =>
          cases hrest : parseHostPorts rest with
          | none => simp [parseHostPorts, hpa, hrest] at h
          | some hps2 =>
              simp only [parseHostPorts, hpa, hrest, Option.some.injEq] at h
              subst h
              simp only [List.mem_cons, ih hrest]
              constructor
              · rintro (rfl | ⟨b, hb, hpb⟩)
                · exact ⟨a, Or.inl rfl, hpa⟩
                · exact ⟨b, Or.inr hb, hpb⟩
              · rintro ⟨b, rfl | hb2, hpb⟩
                · left
                  rw [hpa] at hpb
                  injection hpb with h2
                  exact h2.symm
                · right
                  exact ⟨b, hb2, hpb⟩

/-- Membership in the accumulated port list after one insertion. -/
lemma mem_addPort (acc : List Nat) (p q : Nat) :
    q ∈ addPort acc p ↔ q ∈ acc ∨ q = p := by
  unfold addPort
  split <;> rename_i h
  · constructor
    · exact Or.inl
    · rintro (hq | rfl)
      · exact hq
      · exact h
  · simp

/-- The insertion keeps the accumulated list duplicate-free. -/
lemma nodup_addPort (acc : List Nat) (p : Nat) (h : acc.Nodup) :
    (addPort acc p).Nodup := by
  unfold addPort
  split <;> rename_i hmem
  · exact h
  · simpa [List.nodup_append, h] using hmem

/-- Membership in the result of folding the port-set insertion. -/
lemma mem_foldl_addPort (hps : List HostPort) (acc : List Nat) (p : Nat) :
    p ∈ hps.foldl (fun a hp => addPort a hp.port) acc ↔
      p ∈ acc ∨ ∃ hp ∈ hps, hp.port = p := by
  induction hps generalizing acc with
  | nil => simp
  | cons hp rest ih =>
      simp only [List.foldl_cons, ih, mem_addPort, List.mem_cons]
      constructor
      · rintro ((hacc | rfl) | ⟨x, hx, rfl⟩)
        · exact Or.inl hacc
        · exact Or.inr ⟨hp, Or.inl rfl, rfl⟩
        · exact Or.inr ⟨x, Or.inr hx, rfl⟩
      · rintro (hacc | ⟨x, (rfl | hx), rfl⟩)
        · exact Or.inl (Or.inl hacc)
        · exact Or.inl (Or.inr rfl)
        · exact Or.inr ⟨x, hx, rfl⟩

/-- The fold keeps the accumulated list duplicate-free. -/
lemma nodup_foldl_addPort (hps : List HostPort) (acc : List Nat)
    (h : acc.Nodup) :
    (hps.foldl (fun a hp => addPort a hp.port) acc).Nodup := by
  induction hps generalizing acc with
  | nil => simpa
  | cons hp rest ih => exact ih _ (nodup_addPort _ _ h)

/-- Every error Validate can return carries the not-valid tag. -/
lemma validate_errors_notValid (info : Info) (e : JujuError)
    (h : info.Validate = some e) : e.isNotValid = true := by
  unfold Info.Validate Info.ValidateM at h
  split_ifs at h <;>
    (simp only [Option.some.injEq] at h
     rw [← h]
     rfl)

/-- Validate succeeds exactly when the address list is non-empty and fully
parseable and, under SkipLogin, the three credential fields are empty. -/
lemma validate_eq_none_iff (info : Info) :
    info.Validate = none ↔
      info.Addrs ≠ [] ∧ (parseHostPorts info.Addrs).isSome = true ∧
        (info.SkipLogin = true →
          info.Tag = none ∧ info.Password = "" ∧ info.Macaroons = []) := by
  unfold Info.Validate Info.ValidateM
  split_ifs with h1 h2 h3 h4 h5 h6 <;>
    simp_all [List.length_eq_zero, Option.isNone_iff_eq_none,
      Option.isSome_iff_ne_none, Option.isSome_iff_exists, List.length_pos,
      List.eq_nil_iff_forall_not_mem]

/-- A Broken supervisor stays Broken on every event. -/
lemma supervisorStep_broken (e : ConnEvent) :
    supervisorStep .broken e = .broken := by
  cases e <;> rfl

/-- From Broken the signal never fires again. -/
lemma brokenFireCount_broken (es : List ConnEvent) :
    brokenFireCount .broken es = 0 := by
  induction es with
  | nil => rfl
  | cons e es ih =>
      simp [brokenFireCount, brokenFires, supervisorStep_broken, ih]

/-- Along any run the broken signal fires at most once. -/
lemma brokenFireCount_le_one (s : ConnState) (es : List ConnEvent) :
    brokenFireCount s es ≤ 1 := by
  induction es generalizing s with
  | nil => simp [brokenFireCount]
  | cons e es ih =>
      by_cases h : supervisorStep s e = .broken
      · simp only [brokenFireCount, h, brokenFireCount_broken]
        split <;> omega
      · have hf : brokenFires s e = false := by
          simp [brokenFires, h]
        simpa [brokenFireCount, hf] using ih (supervisorStep s e)

end JujuApi

namespace JujuApi

/-- C1: with SkipLogin set, Validate rejects any non-nil Tag, non-empty
Password or non-empty Macaroons with a not-valid error, and accepts an Info
with all three empty and a valid non-empty address list. -/
theorem validate_skipLogin_exclusive (info : Info) :
    (info.SkipLogin = true →
      (info.Tag.isSome = true ∨ info.Password ≠ "" ∨ info.Macaroons ≠ []) →
      ∃ e, info.Validate = some e ∧ e.isNotValid = true) ∧
    (info.SkipLogin = true → info.Tag = none → info.Password = "" →
      info.Macaroons = [] → info.Addrs ≠ [] →
      (parseHostPorts info.Addrs).isSome = true → info.Validate = none) := by
  constructor
  · intro hs hne
    have hno : info.Validate ≠ none := by
      intro hcon
      obtain ⟨-, -, hcred⟩ := (validate_eq_none_iff info).mp hcon
      obtain ⟨ht, hp, hm⟩ := hcred hs
      rcases hne with h | h | h
      · rw [ht] at h
        simp at h
      · exact h hp
      · exact h hm
    obtain ⟨e, he⟩ := Option.ne_none_iff_exists'.mp hno
    exact ⟨e, he, validate_errors_notValid info e he⟩
  · intro hs ht hp hm ha hparse
    rw [validate_eq_none_iff]
    exact ⟨ha, hparse, fun _ => ⟨ht, hp, hm⟩⟩

/-- C1 witness: a skip-login Info carrying a Tag is rejected; a skip-login
Info with empty credentials and one good address is accepted. -/
theorem validate_skipLogin_exclusive_witness :
    (∃ e, Info.Validate
        { Addrs := ["localhost:17070"], SNIHostName := "", CACert := "",
          ModelTag := "", SkipLogin := true, Tag := some "user-admin",
          Password := "", Macaroons := [], Nonce := "" } = some e ∧
        e.isNotValid = true) ∧
    Info.Validate
        { Addrs := ["localhost:17070"], SNIHostName := "", CACert := "",
          ModelTag := "", SkipLogin := true, Tag := none,
          Password := "", Macaroons := [], Nonce := "" } = none :=
  ⟨(validate_skipLogin_exclusive _).1 rfl (Or.inl rfl),
   (validate_skipLogin_exclusive _).2 rfl rfl rfl rfl (by decide) (by decide)⟩

/-- C2: Validate rejects an empty address list and any unparseable address
with a not-valid error, and succeeds only when the list is non-empty and
every address parses. -/
theorem validate_addresses (info : Info) :
    (info.Addrs = [] → ∃ e, info.Validate = some e ∧ e.isNotValid = true) ∧
    ((∃ a ∈ info.Addrs, parseHostPort a = none) →
      ∃ e, info.Validate = some e ∧ e.isNotValid = true) ∧
    (info.Validate = none →
      info.Addrs ≠ [] ∧ ∀ a ∈ info.Addrs, (parseHostPort a).isSome = true) := by
  refine ⟨?_, ?_, ?_⟩
  · intro ha
    have hno : info.Validate ≠ none := by
      intro hcon
      obtain ⟨h, -, -⟩ := (validate_eq_none_iff info).mp hcon
      exact h ha
    obtain ⟨e, he⟩ := Option.ne_none_iff_exists'.mp hno
    exact ⟨e, he, validate_errors_notValid info e he⟩
  · rintro ⟨a, hmem, hfail⟩
    have hno : info.Validate ≠ none := by
      intro hcon
      obtain ⟨-, hsome, -⟩ := (validate_eq_none_iff info).mp hcon
      have hall := (parseHostPorts_isSome_iff info.Addrs).mp hsome a hmem
      rw [hfail] at hall
      simp at hall
    obtain ⟨e, he⟩ := Option.ne_none_iff_exists'.mp hno
    exact ⟨e, he, validate_errors_notValid info e he⟩
  · intro h
    obtain ⟨ha, hsome, -⟩ := (validate_eq_none_iff info).mp h
    exact ⟨ha, (parseHostPorts_isSome_iff info.Addrs).mp hsome⟩

/-- C2 witness: an Info with no addresses is rejected, an Info with an
unparseable address is rejected, and a validated Info has a non-empty fully
parseable address list. -/
theorem validate_addresses_witness :
    (∃ e, Info.Validate
        { Addrs := [], SNIHostName := "", CACert := "", ModelTag := "",
          SkipLogin := false, Tag := none, Password := "", Macaroons := [],
          Nonce := "" } = some e ∧ e.isNotValid = true) ∧
    (∃ e, Info.Validate
        { Addrs := ["badaddr"], SNIHostName := "", CACert := "",
          ModelTag := "", SkipLogin := false, Tag := none, Password := "",
          Macaroons := [], Nonce := "" } = some e ∧ e.isNotValid = true) ∧
    ((Info.Addrs
        { Addrs := ["localhost:17070"], SNIHostName := "", CACert := "",
          ModelTag := "", SkipLogin := false, Tag := none, Password := "",
          Macaroons := [], Nonce := "" }) ≠ [] ∧
      ∀ a ∈ Info.Addrs
        { Addrs := ["localhost:17070"], SNIHostName := "", CACert := "",
          ModelTag := "", SkipLogin := false, Tag := none, Password := "",
          Macaroons := [], Nonce := "" }, (parseHostPort a).isSome = true) :=
  ⟨(validate_addresses _).1 rfl,
   (validate_addresses _).2.1 ⟨"badaddr", by decide, by decide⟩,
   (validate_addresses _).2.2 (by decide)⟩

/-- C3: DefaultDialOpts staggers addresses by 50ms, times out after 10
minutes, retries after 2s, and keeps TLS verification on. -/
theorem defaultDialOpts_values :
    DefaultDialOpts.DialAddressInterval = 50 * millisecond ∧
    DefaultDialOpts.Timeout = 10 * minute ∧
    DefaultDialOpts.RetryDelay = 2 * second ∧
    DefaultDialOpts.InsecureSkipVerify = false :=
  ⟨rfl, rfl, rfl, rfl⟩

/-- C4: Validate is deterministic and side-effect free - equal receivers
give equal results, the receiver is unchanged, and no network operation is
performed. -/
theorem validate_deterministic_pure (i j : Info) (h : i = j) :
    Info.ValidateM i = Info.ValidateM j ∧
    (Info.ValidateM i).2.1 = i ∧ (Info.ValidateM i).2.2 = [] := by
  subst h
  refine ⟨rfl, ?_, ?_⟩ <;>
    (unfold Info.ValidateM
     split_ifs <;> rfl)

/-- C4 witness: the purity properties at one concrete Info. -/
theorem validate_deterministic_pure_witness :
    Info.ValidateM
        { Addrs := ["localhost:17070"], SNIHostName := "", CACert := "",
          ModelTag := "", SkipLogin := false, Tag := none, Password := "pw",
          Macaroons := [], Nonce := "" } =
      Info.ValidateM
        { Addrs := ["localhost:17070"], SNIHostName := "", CACert := "",
          ModelTag := "", SkipLogin := false, Tag := none, Password := "pw",
          Macaroons := [], Nonce := "" } ∧
    (Info.ValidateM
        { Addrs := ["localhost:17070"], SNIHostName := "", CACert := "",
          ModelTag := "", SkipLogin := false, Tag := none, Password := "pw",
          Macaroons := [], Nonce := "" }).2.1 =
      { Addrs := ["localhost:17070"], SNIHostName := "", CACert := "",
        ModelTag := "", SkipLogin := false, Tag := none, Password := "pw",
        Macaroons := [], Nonce := "" } ∧
    (Info.ValidateM
        { Addrs := ["localhost:17070"], SNIHostName := "", CACert := "",
          ModelTag := "", SkipLogin := false, Tag := none, Password := "pw",
          Macaroons := [], Nonce := "" }).2.2 = [] :=
  validate_deterministic_pure _ _ rfl

/-- C6: along any event sequence from the initial state the one-shot broken
signal fires at most once, and Broken is terminal. -/
theorem supervisor_broken_once_terminal :
    (∀ events : List ConnEvent, brokenFireCount .connecting events ≤ 1) ∧
    (∀ e, supervisorStep .broken e = .broken) :=
  ⟨fun events => brokenFireCount_le_one _ events,
   fun e => supervisorStep_broken e⟩

/-- C7: with a non-empty CA certificate the connection-establishment inputs
do not depend on the SNI host name hint. -/
theorem sni_ignored_with_cacert (i : Info) (s : String) (h : i.CACert ≠ "") :
    dialInputs { i with SNIHostName := s } = dialInputs i := by
  simp [dialInputs, tlsParamsFor, h]

/-- C7 witness: changing the SNI hint of a CA-carrying Info leaves the dial
inputs unchanged. -/
theorem sni_ignored_with_cacert_witness :
    dialInputs
        { Addrs := ["localhost:17070"], SNIHostName := "other.example.com",
          CACert := "PEMDATA", ModelTag := "", SkipLogin := false,
          Tag := none, Password := "", Macaroons := [], Nonce := "" } =
      dialInputs
        { Addrs := ["localhost:17070"], SNIHostName := "sni.example.com",
          CACert := "PEMDATA", ModelTag := "", SkipLogin := false,
          Tag := none, Password := "", Macaroons := [], Nonce := "" } :=
  sni_ignored_with_cacert
    { Addrs := ["localhost:17070"], SNIHostName := "sni.example.com",
      CACert := "PEMDATA", ModelTag := "", SkipLogin := false,
      Tag := none, Password := "", Macaroons := [], Nonce := "" }
    "other.example.com" (by decide)

/-- C8: on an Info accepted by Validate, Ports cannot reach the panic
branch. -/
theorem ports_safe_after_validate (info : Info) (h : info.Validate = none) :
    (Info.Ports info).isSome = true := by
  obtain ⟨-, hsome, -⟩ := (validate_eq_none_iff info).mp h
  obtain ⟨hps, hhps⟩ := Option.isSome_iff_exists.mp hsome
  unfold Info.Ports
  rw [hhps]
  rfl

/-- C8 witness: Ports succeeds on a concrete validated Info. -/
theorem ports_safe_after_validate_witness :
    (Info.Ports
        { Addrs := ["localhost:17070", "10.0.0.1:17071"], SNIHostName := "",
          CACert := "", ModelTag := "", SkipLogin := false, Tag := none,
          Password := "", Macaroons := [], Nonce := "" }).isSome = true :=
  ports_safe_after_validate _ (by decide)

/-- C9: on fully parseable addresses, Ports returns exactly the distinct
ports of the addresses, each exactly once. -/
theorem ports_distinct_complete (info : Info)
    (h : ∀ a ∈ info.Addrs, (parseHostPort a).isSome = true) :
    ∃ ps, Info.Ports info = some ps ∧ ps.Nodup ∧
      ∀ p, p ∈ ps ↔
        ∃ a ∈ info.Addrs, ∃ hp, parseHostPort a = some hp ∧ hp.port = p := by
  have hsome := (parseHostPorts_isSome_iff info.Addrs).mpr h
  obtain ⟨hps, hhps⟩ := Option.isSome_iff_exists.mp hsome
  refine ⟨hps.foldl (fun acc hp => addPort acc hp.port) [], ?_, ?_, ?_⟩
  · unfold Info.Ports
    rw [hhps]
  · exact nodup_foldl_addPort hps [] List.nodup_nil
  · intro p
    rw [mem_foldl_addPort]
    simp only [List.not_mem_nil, false_or]
    constructor
    · rintro ⟨hp, hmem, rfl⟩
      obtain ⟨a, hma, hpa⟩ := (mem_parseHostPorts hhps hp).mp hmem
      exact ⟨a, hma, hp, hpa, rfl⟩
    · rintro ⟨a, hma, hp, hpa, rfl⟩
      exact ⟨hp, (mem_parseHostPorts hhps hp).mpr ⟨a, hma, hpa⟩, rfl⟩

/-- C9 witness: the port-set property at a concrete Info whose three
addresses carry two distinct ports. -/
theorem ports_distinct_complete_witness :
    ∃ ps, Info.Ports
        { Addrs := ["a:1", "b:1", "c:2"], SNIHostName := "", CACert := "",
          ModelTag := "", SkipLogin := false, Tag := none, Password := "",
          Macaroons := [], Nonce := "" } = some ps ∧ ps.Nodup ∧
      ∀ p, p ∈ ps ↔
        ∃ a ∈ Info.Addrs
          { Addrs := ["a:1", "b:1", "c:2"], SNIHostName := "", CACert := "",
            ModelTag := "", SkipLogin := false, Tag := none, Password := "",
            Macaroons := [], Nonce := "" },
          ∃ hp, parseHostPort a = some hp ∧ hp.port = p :=
  ports_distinct_complete _ (by decide)

end JujuApi

namespace Rackspace

/-- C10: ModifyRunServerOptions sets ConfigDrive and leaves every other
field of the options unchanged. -/
theorem modifyRunServerOptions_spec (opts : RunServerOpts) :
    (modifyRunServerOptions opts).ConfigDrive = true ∧
    (modifyRunServerOptions opts).Name = opts.Name ∧
    (modifyRunServerOptions opts).FlavorId = opts.FlavorId ∧
    (modifyRunServerOptions opts).ImageId = opts.ImageId ∧
    (modifyRunServerOptions opts).UserData = opts.UserData ∧
    (modifyRunServerOptions opts).SecurityGroupNames = opts.SecurityGroupNames ∧
    (modifyRunServerOptions opts).Networks = opts.Networks ∧
    (modifyRunServerOptions opts).AvailabilityZone = opts.AvailabilityZone ∧
    (modifyRunServerOptions opts).Metadata = opts.Metadata :=
  ⟨rfl, rfl, rfl, rfl, rfl, rfl, rfl, rfl, rfl⟩

end Rackspace
